import Mathlib

/-! # CRC-6 (polynomial 0x67, seed 0x25) of the AD4134 frame check

Shallow embedding of `src/crc6-ad4134.c`:

* `generate_crc6_0x67_table` : the builder of the 256-entry lookup table,
* `calc_crc6_0x67_table`     : the table-driven verifier,
* `calc_crc6_0x67_direct`    : the bit-serial verifier (six bits per step).

Machine integers are natural numbers; a store into a `uint16_t` is written
`% 65536`, a store into a `uint8_t` is written `% 256`.  An array read is
`List` indexing with `[i]?`, so a read outside the array is `none`.
-/

namespace Crc6

/-! ## The source program -/

/-- Generator polynomial, `const uint16_t poly = 0x67` (line 60). -/
def poly : Nat := 0x67

/-- One pass of the inner loop body of `generate_crc6_0x67_table` (line 67):
`val = (val & 0x80) ? ((val << 1) ^ (poly << 2)) : (val << 1);`
The right-hand side is computed in `int` and stored into the `uint16_t val`. -/
def table_step (val : Nat) : Nat :=
  if val &&& 0x80 ≠ 0 then ((val <<< 1) ^^^ (poly <<< 2)) % 65536 else (val <<< 1) % 65536

/-- The inner loop `for (j = 0; j < 8; ++j)` started from `val = i` (lines 65-68). -/
def table_val (i : Nat) : Nat :=
  table_step^[8] (i % 65536)

/-- The value stored at index `i` (line 69): `(val >> 2) & 0x3f`, stored into a `uint8_t`. -/
def table_entry (i : Nat) : Nat :=
  ((table_val i >>> 2) &&& 0x3f) % 256

/-- The function `generate_crc6_0x67_table` (lines 58-71): the outer loop
`for (i = 0; i < 256; ++i)` overwrites entry `i` of the global table; the
argument is the content of `crc6_0x67_table` before the call. -/
def generate_crc6_0x67_table (table : List Nat) : List Nat :=
  (List.range 256).foldl (fun t i => t.set i (table_entry i)) table

/-- The three table indices `(crc << 2) ^ data[k]` of `calc_crc6_0x67_table`
(lines 76-78), computed in `int` with no mask; `none` once a read falls
outside the table. -/
def table_indices (table : List Nat) (d0 d1 d2 : Nat) : Option (Nat × Nat × Nat) :=
  let crc := 0x25
  let i0 := (crc <<< 2) ^^^ d0
  match table[i0]? with
  | none => none
  | some crc =>
    let i1 := (crc <<< 2) ^^^ d1
    match table[i1]? with
    | none => none
    | some crc =>
      let i2 := (crc <<< 2) ^^^ d2
      some (i0, i1, i2)

/-- The final register `crc` of `calc_crc6_0x67_table` after the third
lookup (lines 75-78); `none` when a read falls outside the table. -/
def crc_table (table : List Nat) (d0 d1 d2 : Nat) : Option Nat :=
  let crc := 0x25
  match table[(crc <<< 2) ^^^ d0]? with
  | none => none
  | some crc =>
    match table[(crc <<< 2) ^^^ d1]? with
    | none => none
    | some crc => table[(crc <<< 2) ^^^ d2]?

/-- The function `calc_crc6_0x67_table` (lines 73-80): `return (0 == crc)`. -/
def calc_crc6_0x67_table (table : List Nat) (d0 d1 d2 : Nat) : Option Bool :=
  match crc_table table d0 d1 d2 with
  | none => none
  | some crc => some (0 == crc)

/-- The C expression `(x >> k) & 1` stored into a `bool` (lines 92-124). -/
def bit (x k : Nat) : Bool :=
  ((x >>> k) &&& 1) != 0

/-- The array `bool c[7]` (and its snapshot `ch`) of `calc_crc6_0x67_direct`. -/
structure CState where
  c0 : Bool
  c1 : Bool
  c2 : Bool
  c3 : Bool
  c4 : Bool
  c5 : Bool
  c6 : Bool
deriving DecidableEq, Repr

/-- The array `bool d[6]` of `calc_crc6_0x67_direct`. -/
structure DVec where
  d0 : Bool
  d1 : Bool
  d2 : Bool
  d3 : Bool
  d4 : Bool
  d5 : Bool
deriving DecidableEq, Repr

/-- The initializer of `c` (line 84). -/
def c_init : CState :=
  ⟨true, false, true, false, false, true, false⟩

/-- The `switch (i)` of lines 90-126: the six input bits of step `i`.  For
an `i` outside `0..3` no case matches and `d` keeps its content. -/
def slice (i : Nat) (d0 d1 d2 : Nat) (d : DVec) : DVec :=
  match i with
  | 0 => ⟨bit d0 7, bit d0 6, bit d0 5, bit d0 4, bit d0 3, bit d0 2⟩
  | 1 => ⟨bit d0 1, bit d0 0, bit d1 7, bit d1 6, bit d1 5, bit d1 4⟩
  | 2 => ⟨bit d1 3, bit d1 2, bit d1 1, bit d1 0, bit d2 7, bit d2 6⟩
  | 3 => ⟨bit d2 5, bit d2 4, bit d2 3, bit d2 2, bit d2 1, bit d2 0⟩
  | _ => d

/-- Lines 128-136: `memcpy (ch, c, sizeof (c))` followed by the seven
assignments.  The operands of `^` are `bool`s, so each is 0 or 1 and the
integer exclusive-or stored back into a `bool` is the boolean one. -/
def direct_step (ch : CState) (d : DVec) : CState :=
  { c6 := ch.c5
    c5 := xor (xor (xor (xor (xor (xor (xor ch.c0 ch.c1) ch.c2) ch.c5) d.d0) d.d3) d.d4) d.d5
    c4 := xor (xor (xor (xor (xor ch.c2 ch.c4) ch.c5) d.d0) d.d1) d.d3
    c3 := xor (xor (xor (xor (xor ch.c1 ch.c3) ch.c4) d.d1) d.d2) d.d4
    c2 := xor (xor (xor (xor (xor (xor (xor ch.c0 ch.c2) ch.c3) ch.c5) d.d0) d.d2) d.d3) d.d5
    c1 := xor (xor (xor ch.c0 ch.c4) d.d1) d.d5
    c0 := xor (xor (xor (xor (xor (xor (xor ch.c0 ch.c1) ch.c2) ch.c3) d.d2) d.d3) d.d4) d.d5 }

/-- The loop `for (i = 0; i < 4; ++i)` of lines 89-137, started from the
state `c` and the (never read) content `d` of the input array. -/
def direct_loop (d0 d1 d2 : Nat) (c : CState) (d : DVec) : CState × DVec :=
  (List.range 4).foldl
    (fun s i =>
      let d := slice i d0 d1 d2 s.2
      (direct_step s.1 d, d))
    (c, d)

/-- The final loop of lines 139-143: `false` at the first set `c[i]`, `i < 6`. -/
def c_all_clear (c : CState) : Bool :=
  if c.c0 then false
  else if c.c1 then false
  else if c.c2 then false
  else if c.c3 then false
  else if c.c4 then false
  else if c.c5 then false
  else true

/-- The state `c` of `calc_crc6_0x67_direct` after the four steps, started
from an arbitrary state `c` (the source starts from `c_init`). -/
def direct_final_from (c : CState) (d0 d1 d2 : Nat) : CState :=
  (direct_loop d0 d1 d2 c ⟨false, false, false, false, false, false⟩).1

/-- The function `calc_crc6_0x67_direct` (lines 82-144). -/
def calc_crc6_0x67_direct (d0 d1 d2 : Nat) : Bool :=
  c_all_clear (direct_final_from c_init d0 d1 d2)

/-- The array `known_good` (lines 38-45), its closing `{0,0,0}` included. -/
def known_good : List (Nat × Nat × Nat) :=
  [(0b11111101, 0b01000010, 0b11011001),
   (0b11111101, 0b01101111, 0b11011100),
   (0b11111111, 0b11111101, 0b11011010),
   (0b11111101, 0b01011101, 0b11000000),
   (0b11111101, 0b10000110, 0b11100000),
   (0, 0, 0)]

/-- The array `known_bad` (lines 47-54), its closing `{0,0,0}` included. -/
def known_bad : List (Nat × Nat × Nat) :=
  [(0b11111101, 0b01000000, 0b11011001),
   (0b11111101, 0b01101101, 0b11011100),
   (0b11111111, 0b11111111, 0b11011010),
   (0b11111001, 0b01011101, 0b11000000),
   (0b11111101, 0b10000110, 0b11100010),
   (0, 0, 0)]

/-- The vectors visited by the test loops of `main` (lines 155 and 161):
`for (i = 0; v[i][0]; ++i)` stops at the first vector whose first byte is 0. -/
def tested (v : List (Nat × Nat × Nat)) : List (Nat × Nat × Nat) :=
  v.takeWhile (fun f => f.1 != 0)

/-! ## The reference notions of the specification -/

/-- A single-bit CRC step with input bit `x`:
`((r << 1) & 0x3F) XOR (0x27 if (bit 5 of r) XOR x is 1, else 0)`. -/
def lfsr_step (r : Nat) (x : Bool) : Nat :=
  ((r <<< 1) &&& 0x3F) ^^^ (if xor (r.testBit 5) x then 0x27 else 0)

/-- The bits of a byte, most significant first. -/
def msb_bits (b : Nat) : List Bool :=
  [b.testBit 7, b.testBit 6, b.testBit 5, b.testBit 4,
   b.testBit 3, b.testBit 2, b.testBit 1, b.testBit 0]

/-- The 6-bit number with `c[i]` as bit `i`, for `i` in `0..5`. -/
def CState.toNat (c : CState) : Nat :=
  c.c0.toNat + 2 * c.c1.toNat + 4 * c.c2.toNat + 8 * c.c3.toNat + 16 * c.c4.toNat
    + 32 * c.c5.toNat

/-- The input group `d[0..5]` as a list, `d[0]` first. -/
def DVec.toList (d : DVec) : List Bool :=
  [d.d0, d.d1, d.d2, d.d3, d.d4, d.d5]

/-- The single-bit step on the bits of the register: the feedback bit is
`c[5] XOR x`, the register moves up by one place and the feedback is added
at the places 0, 1, 2 and 5 of the polynomial; `c[6]` is left alone. -/
def lfsr_bits (c : CState) (x : Bool) : CState :=
  { c0 := xor c.c5 x
    c1 := xor c.c0 (xor c.c5 x)
    c2 := xor c.c1 (xor c.c5 x)
    c3 := c.c2
    c4 := c.c3
    c5 := xor c.c4 (xor c.c5 x)
    c6 := c.c6 }

/-- The 24 bits of the frame, bit 23 (the top bit of `data[0]`) first. -/
def frame_bits (d0 d1 d2 : Nat) : List Bool :=
  msb_bits d0 ++ (msb_bits d1 ++ msb_bits d2)

/-- The register after the 24 single-bit steps over the frame, from `r`. -/
def residual_from (r : Nat) (d0 d1 d2 : Nat) : Nat :=
  (frame_bits d0 d1 d2).foldl lfsr_step r

/-- The frame with bit `k` flipped, where bit 0 is the lowest bit of
`data[2]` and bit 23 the top bit of `data[0]`. -/
def flip_bit (d0 d1 d2 k : Nat) : Nat × Nat × Nat :=
  if k < 8 then (d0, d1, d2 ^^^ (1 <<< k))
  else if k < 16 then (d0, d1 ^^^ (1 <<< (k - 8)), d2)
  else (d0 ^^^ (1 <<< (k - 16)), d1, d2)

/-- The division step of the table builder as the specification words it:
the bit tested is the top bit (bit 15) of the 16-bit working value. -/
def spec_table_step (val : Nat) : Nat :=
  if val.testBit 15 then ((val <<< 1) ^^^ (0x67 <<< 2)) % 2 ^ 16 else (val <<< 1) % 2 ^ 16

/-- The table entry as the specification words it: 8 iterations from the
16-bit working value `i`, then bits [7:2] of the working value. -/
def spec_table_entry (i : Nat) : Nat :=
  (spec_table_step^[8] i / 4) % 64

/-- The division step with the tested bit amended to bit 7 (mask 0x80) of
the 16-bit working value. -/
def amended_table_step (val : Nat) : Nat :=
  if val.testBit 7 then ((val <<< 1) ^^^ (0x67 <<< 2)) % 2 ^ 16 else (val <<< 1) % 2 ^ 16

/-- The table entry of the amended wording: 8 iterations of
`amended_table_step` from `i`, then bits [7:2] of the working value. -/
def amended_table_entry (i : Nat) : Nat :=
  (amended_table_step^[8] i / 4) % 64

/-- The 24-bit frame value `F = data[0]*65536 + data[1]*256 + data[2]`. -/
def frame_word (d0 d1 d2 : Nat) : Nat :=
  d0 * 65536 + d1 * 256 + d2

/-- The three bytes of a 24-bit frame value, `data[0]` first. -/
def word_frame (F : Nat) : Nat × Nat × Nat :=
  (F / 65536, F / 256 % 256, F % 256)

/-- The bits 23..0 of a frame value, bit 23 first. -/
def word_bits (F : Nat) : List Bool :=
  [F.testBit 23, F.testBit 22, F.testBit 21, F.testBit 20, F.testBit 19, F.testBit 18,
   F.testBit 17, F.testBit 16, F.testBit 15, F.testBit 14, F.testBit 13, F.testBit 12,
   F.testBit 11, F.testBit 10, F.testBit 9, F.testBit 8, F.testBit 7, F.testBit 6,
   F.testBit 5, F.testBit 4, F.testBit 3, F.testBit 2, F.testBit 1, F.testBit 0]

/-- The 18 data bits (bits 23..6 of the frame) given as the number `u`,
top bit first. -/
def data_bits (u : Nat) : List Bool :=
  [u.testBit 17, u.testBit 16, u.testBit 15, u.testBit 14, u.testBit 13, u.testBit 12,
   u.testBit 11, u.testBit 10, u.testBit 9, u.testBit 8, u.testBit 7, u.testBit 6,
   u.testBit 5, u.testBit 4, u.testBit 3, u.testBit 2, u.testBit 1, u.testBit 0]

/-- The 6 check bits (bits 5..0 of the frame) given as the number `l`,
top bit first. -/
def check_bits (l : Nat) : List Bool :=
  [l.testBit 5, l.testBit 4, l.testBit 3, l.testBit 2, l.testBit 1, l.testBit 0]

/-- The register after the 18 data bits `u`, from the seed 0x25. -/
def check_value (u : Nat) : Nat :=
  (data_bits u).foldl lfsr_step 0x25

/-- The frame `f XOR e` for a 24-bit error pattern `e`. -/
def xor_pattern (d0 d1 d2 e : Nat) : Nat × Nat × Nat :=
  (d0 ^^^ (word_frame e).1, d1 ^^^ (word_frame e).2.1, d2 ^^^ (word_frame e).2.2)

/-! # Supporting lemmas -/

/-! ## The table builder as a map over the indices -/

theorem foldl_set_length (f : Nat → Nat) (l : List Nat) (t : List Nat) :
    (l.foldl (fun t i => t.set i (f i)) t).length = t.length := by
  induction l generalizing t with
  | nil => rfl
  | cons a l ih => simp [List.foldl_cons, ih]

theorem foldl_set_range_get (f : Nat → Nat) (n : Nat) (t : List Nat) (j : Nat) :
    ((List.range n).foldl (fun t i => t.set i (f i)) t)[j]? =
      if j < n ∧ j < t.length then some (f j) else t[j]? := by
  induction n with
  | zero => simp
  | succ m ih =>
    rw [List.range_succ, List.foldl_append, List.foldl_cons, List.foldl_nil,
      List.getElem?_set, foldl_set_length, ih]
    by_cases h1 : m = j
    · subst h1
      by_cases h2 : m < t.length <;> simp [h2]
      omega
    · by_cases h2 : j < m
      · have : j < m + 1 := by omega
        simp [h1, h2, this]
      · have : ¬ j < m + 1 := by omega
        simp [h1, h2, this]

theorem generate_get (table : List Nat) (h : table.length = 256) (j : Nat) :
    (generate_crc6_0x67_table table)[j]? = if j < 256 then some (table_entry j) else none := by
  unfold generate_crc6_0x67_table
  rw [foldl_set_range_get, h]
  by_cases hj : j < 256
  · simp [hj]
  · simp [hj]
    omega

theorem generate_length (table : List Nat) :
    (generate_crc6_0x67_table table).length = table.length :=
  foldl_set_length _ _ _

theorem generate_eq_map (table : List Nat) (h : table.length = 256) :
    generate_crc6_0x67_table table = (List.range 256).map table_entry := by
  apply List.ext_getElem?
  intro j
  rw [generate_get table h]
  by_cases hj : j < 256
  · simp [hj, List.getElem?_range]
  · have h2 : (List.range 256)[j]? = none := by
      apply List.getElem?_eq_none
      simp
      omega
    simp [hj, h2]

theorem table_entry_lt (i : Nat) : table_entry i < 64 := by
  unfold table_entry
  have h : (table_val i >>> 2) &&& 0x3f ≤ 0x3f := Nat.and_le_right
  omega


/-! ## The LFSR of polynomial 0x67 is linear over exclusive-or -/

theorem bit_eq_testBit (x k : Nat) : bit x k = x.testBit k := by
  unfold bit Nat.testBit
  rw [Nat.and_comm]

theorem lfsr_step_lt (r : Nat) (x : Bool) : lfsr_step r x < 64 := by
  unfold lfsr_step
  apply Nat.xor_lt_two_pow (n := 6)
  · exact Nat.and_lt_two_pow _ (by norm_num)
  · split <;> norm_num

theorem foldl_lfsr_lt (xs : List Bool) (r : Nat) (h : r < 64) :
    xs.foldl lfsr_step r < 64 := by
  induction xs generalizing r with
  | nil => exact h
  | cons x xs ih => exact ih _ (lfsr_step_lt r x)

theorem shl_and_xor (r s : Nat) :
    ((r ^^^ s) <<< 1) &&& 0x3F = ((r <<< 1) &&& 0x3F) ^^^ ((s <<< 1) &&& 0x3F) := by
  apply Nat.eq_of_testBit_eq
  intro i
  simp only [Nat.testBit_and, Nat.testBit_xor, Nat.testBit_shiftLeft]
  cases decide (i ≥ 1) <;> cases Nat.testBit 63 i <;> simp

theorem feedback_xor (a b : Bool) :
    (if xor a b then 0x27 else 0) = (if a then 0x27 else 0) ^^^ (if b then 0x27 else 0) := by
  cases a <;> cases b <;> rfl

/-- The single-bit step is linear over exclusive-or. -/
theorem lfsr_step_xor (r s : Nat) (x y : Bool) :
    lfsr_step (r ^^^ s) (xor x y) = lfsr_step r x ^^^ lfsr_step s y := by
  unfold lfsr_step
  have h : xor ((r ^^^ s).testBit 5) (xor x y) = xor (xor (r.testBit 5) x) (xor (s.testBit 5) y) := by
    rw [Nat.testBit_xor]
    cases r.testBit 5 <;> cases s.testBit 5 <;> cases x <;> cases y <;> rfl
  rw [h, feedback_xor, shl_and_xor]
  generalize (r <<< 1) &&& 0x3F = a
  generalize (s <<< 1) &&& 0x3F = b
  generalize (if xor (r.testBit 5) x then 0x27 else 0) = u
  generalize (if xor (s.testBit 5) y then 0x27 else 0) = v
  rw [Nat.xor_assoc, Nat.xor_assoc, ← Nat.xor_assoc b u v, Nat.xor_comm b u, Nat.xor_assoc u b v]

/-- A run of single-bit steps is linear over exclusive-or. -/
theorem foldl_lfsr_xor (xs ys : List Bool) (h : xs.length = ys.length) (r s : Nat) :
    (List.zipWith xor xs ys).foldl lfsr_step (r ^^^ s)
      = xs.foldl lfsr_step r ^^^ ys.foldl lfsr_step s := by
  induction xs generalizing ys r s with
  | nil =>
    cases ys with
    | nil => rfl
    | cons y ys => simp at h
  | cons x xs ih =>
    cases ys with
    | nil => simp at h
    | cons y ys =>
      simp only [List.zipWith_cons_cons, List.foldl_cons]
      rw [lfsr_step_xor]
      exact ih ys (by simpa using h) _ _

theorem msb_bits_xor (a b : Nat) :
    msb_bits (a ^^^ b) = List.zipWith xor (msb_bits a) (msb_bits b) := by
  simp only [msb_bits, Nat.testBit_xor, List.zipWith_cons_cons, List.zipWith_nil_right]

theorem msb_bits_length (a : Nat) : (msb_bits a).length = 8 := rfl


/-! ## One table lookup is eight single-bit steps -/

set_option maxRecDepth 100000 in
theorem table_entry_eq_foldl_zero :
    ∀ w < 256, table_entry w = (msb_bits w).foldl lfsr_step 0 := by
  decide!

set_option maxRecDepth 100000 in
theorem foldl_register_as_input :
    ∀ r < 64, (msb_bits 0).foldl lfsr_step r = (msb_bits (r <<< 2)).foldl lfsr_step 0 := by
  decide!

theorem index_lt (r b : Nat) (hr : r < 64) (hb : b < 256) : (r <<< 2) ^^^ b < 256 := by
  apply Nat.xor_lt_two_pow (n := 8)
  · rw [Nat.shiftLeft_eq]; omega
  · exact hb

theorem foldl_split (r a b : Nat) :
    (msb_bits (a ^^^ b)).foldl lfsr_step r
      = (msb_bits a).foldl lfsr_step r ^^^ (msb_bits b).foldl lfsr_step 0 := by
  rw [msb_bits_xor]
  have h := foldl_lfsr_xor (msb_bits a) (msb_bits b)
    ((msb_bits_length a).trans (msb_bits_length b).symm) r 0
  rw [Nat.xor_zero] at h
  exact h

theorem table_entry_eq_foldl (r b : Nat) (hr : r < 64) (hb : b < 256) :
    table_entry ((r <<< 2) ^^^ b) = (msb_bits b).foldl lfsr_step r := by
  rw [table_entry_eq_foldl_zero _ (index_lt r b hr hb), foldl_split,
    ← foldl_register_as_input r hr, ← foldl_split, Nat.zero_xor]


/-! ## One step of the bit-serial verifier is six single-bit steps -/

theorem lfsr_bits_toNat_aux :
    ∀ c0 c1 c2 c3 c4 c5 c6 x : Bool,
      (lfsr_bits ⟨c0, c1, c2, c3, c4, c5, c6⟩ x).toNat
        = lfsr_step (CState.toNat ⟨c0, c1, c2, c3, c4, c5, c6⟩) x := by
  decide

theorem lfsr_bits_toNat (c : CState) (x : Bool) :
    (lfsr_bits c x).toNat = lfsr_step c.toNat x := by
  cases c
  exact lfsr_bits_toNat_aux _ _ _ _ _ _ _ _

theorem foldl_lfsr_bits_toNat (xs : List Bool) (c : CState) :
    (xs.foldl lfsr_bits c).toNat = xs.foldl lfsr_step c.toNat := by
  induction xs generalizing c with
  | nil => rfl
  | cons x xs ih => rw [List.foldl_cons, List.foldl_cons, ih, lfsr_bits_toNat]

theorem xor_cancel_left (a b : Bool) : xor a (xor a b) = b := by
  cases a <;> cases b <;> rfl

theorem direct_step_unrolled (ch : CState) (d : DVec) :
    { direct_step ch d with c6 := ch.c6 } = d.toList.foldl lfsr_bits ch := by
  cases ch
  cases d
  simp only [direct_step, lfsr_bits, DVec.toList, List.foldl, CState.mk.injEq]
  simp only [Bool.xor_assoc, Bool.xor_comm, Bool.xor_left_comm, xor_cancel_left, Bool.xor_self,
    Bool.xor_false, and_self]

theorem with_c6_toNat (c : CState) (b : Bool) : CState.toNat { c with c6 := b } = c.toNat := rfl

theorem direct_step_toNat (ch : CState) (d : DVec) :
    (direct_step ch d).toNat = d.toList.foldl lfsr_step ch.toNat := by
  rw [← foldl_lfsr_bits_toNat, ← with_c6_toNat (direct_step ch d) ch.c6, direct_step_unrolled]


/-! ## Both verifiers compute the LFSR residual of the 24 frame bits -/

theorem residual_from_lt (r d0 d1 d2 : Nat) (h : r < 64) : residual_from r d0 d1 d2 < 64 :=
  foldl_lfsr_lt _ r h

theorem lookup_eq (table : List Nat) (h : table.length = 256) (r b : Nat)
    (hr : r < 64) (hb : b < 256) :
    (generate_crc6_0x67_table table)[(r <<< 2) ^^^ b]?
      = some ((msb_bits b).foldl lfsr_step r) := by
  rw [generate_get table h, if_pos (index_lt r b hr hb), table_entry_eq_foldl r b hr hb]

theorem crc_table_eq (table : List Nat) (h : table.length = 256) (d0 d1 d2 : Nat)
    (h0 : d0 < 256) (h1 : d1 < 256) (h2 : d2 < 256) :
    crc_table (generate_crc6_0x67_table table) d0 d1 d2 = some (residual_from 0x25 d0 d1 d2) := by
  have r0 : (0x25 : Nat) < 64 := by norm_num
  have r1 := foldl_lfsr_lt (msb_bits d0) 0x25 r0
  have r2 := foldl_lfsr_lt (msb_bits d1) _ r1
  unfold crc_table
  simp only [lookup_eq table h _ _ r0 h0, lookup_eq table h _ _ r1 h1, lookup_eq table h _ _ r2 h2]
  simp only [residual_from, frame_bits, List.foldl_append]

theorem direct_final_from_toNat (c : CState) (d0 d1 d2 : Nat) :
    (direct_final_from c d0 d1 d2).toNat = residual_from c.toNat d0 d1 d2 := by
  have h : direct_final_from c d0 d1 d2
      = direct_step (direct_step (direct_step (direct_step c
          ⟨bit d0 7, bit d0 6, bit d0 5, bit d0 4, bit d0 3, bit d0 2⟩)
          ⟨bit d0 1, bit d0 0, bit d1 7, bit d1 6, bit d1 5, bit d1 4⟩)
          ⟨bit d1 3, bit d1 2, bit d1 1, bit d1 0, bit d2 7, bit d2 6⟩)
          ⟨bit d2 5, bit d2 4, bit d2 3, bit d2 2, bit d2 1, bit d2 0⟩ := rfl
  rw [h]
  simp only [direct_step_toNat, bit_eq_testBit, DVec.toList, residual_from, frame_bits, msb_bits,
    List.foldl_cons, List.foldl_nil, List.cons_append, List.nil_append]

theorem c_all_clear_eq (c : CState) : c_all_clear c = (0 == c.toNat) := by
  rcases c with ⟨_ | _, _ | _, _ | _, _ | _, _ | _, _ | _, _⟩ <;> rfl

theorem c_init_toNat : c_init.toNat = 0x25 := rfl

theorem calc_table_eq (table : List Nat) (h : table.length = 256) (d0 d1 d2 : Nat)
    (h0 : d0 < 256) (h1 : d1 < 256) (h2 : d2 < 256) :
    calc_crc6_0x67_table (generate_crc6_0x67_table table) d0 d1 d2
      = some (0 == residual_from 0x25 d0 d1 d2) := by
  unfold calc_crc6_0x67_table
  rw [crc_table_eq table h d0 d1 d2 h0 h1 h2]

theorem calc_direct_eq (d0 d1 d2 : Nat) :
    calc_crc6_0x67_direct d0 d1 d2 = (0 == residual_from 0x25 d0 d1 d2) := by
  unfold calc_crc6_0x67_direct
  rw [c_all_clear_eq, direct_final_from_toNat, c_init_toNat]

/-! ## The test of mask 0x80 in the builder is a test of bit 7 -/

theorem and_0x80_ne_zero_iff (v : Nat) : v &&& 0x80 ≠ 0 ↔ v.testBit 7 = true := by
  have e : (0x80 : Nat) = 2 ^ 7 := by norm_num
  rw [e]
  constructor
  · intro h
    by_contra hb
    apply h
    apply Nat.eq_of_testBit_eq
    intro i
    rw [Nat.testBit_and, Nat.testBit_two_pow, Nat.zero_testBit]
    by_cases hi : 7 = i
    · subst hi
      simp [hb]
    · simp [hi]
  · intro hb h
    have h7 : (v &&& 2 ^ 7).testBit 7 = true := by
      rw [Nat.testBit_and, hb, Nat.testBit_two_pow_self]
      rfl
    rw [h, Nat.zero_testBit] at h7
    exact Bool.noConfusion h7

theorem table_step_eq_amended (v : Nat) : table_step v = amended_table_step v := by
  unfold table_step amended_table_step poly
  have e16 : (2 : Nat) ^ 16 = 65536 := by norm_num
  rw [e16]
  by_cases hb : v.testBit 7 = true
  · rw [if_pos ((and_0x80_ne_zero_iff v).mpr hb), if_pos hb]
  · rw [if_neg (fun h => hb ((and_0x80_ne_zero_iff v).mp h)), if_neg hb]

theorem table_entry_eq_amended (i : Nat) (hi : i < 256) :
    table_entry i = amended_table_entry i := by
  unfold table_entry table_val amended_table_entry
  have hs : table_step = amended_table_step := funext table_step_eq_amended
  have hm : i % 65536 = i := Nat.mod_eq_of_lt (by omega)
  have e : (0x3f : Nat) = 2 ^ 6 - 1 := by norm_num
  rw [hs, hm, e, Nat.and_pow_two_sub_one_eq_mod, Nat.shiftRight_eq_div_pow]
  omega

/-! ## Flipping one bit of the frame -/

theorem frame_bits_length (d0 d1 d2 : Nat) : (frame_bits d0 d1 d2).length = 24 := rfl

theorem residual_from_xor (r s a0 a1 a2 b0 b1 b2 : Nat) :
    residual_from (r ^^^ s) (a0 ^^^ b0) (a1 ^^^ b1) (a2 ^^^ b2)
      = residual_from r a0 a1 a2 ^^^ residual_from s b0 b1 b2 := by
  unfold residual_from
  rw [← foldl_lfsr_xor (frame_bits a0 a1 a2) (frame_bits b0 b1 b2)
    ((frame_bits_length a0 a1 a2).trans (frame_bits_length b0 b1 b2).symm)]
  simp only [frame_bits, msb_bits, Nat.testBit_xor, List.cons_append, List.nil_append,
    List.zipWith_cons_cons, List.zipWith_nil_right]

theorem flip_bit_eq_xor (d0 d1 d2 k : Nat) :
    flip_bit d0 d1 d2 k
      = (d0 ^^^ (flip_bit 0 0 0 k).1, d1 ^^^ (flip_bit 0 0 0 k).2.1,
          d2 ^^^ (flip_bit 0 0 0 k).2.2) := by
  unfold flip_bit
  split
  · simp
  · split <;> simp

theorem flip_bit_zero_lt : ∀ k < 24,
    (flip_bit 0 0 0 k).1 < 256 ∧ (flip_bit 0 0 0 k).2.1 < 256 ∧ (flip_bit 0 0 0 k).2.2 < 256 := by
  decide

theorem flip_bit_lt (d0 d1 d2 k : Nat) (h0 : d0 < 256) (h1 : d1 < 256) (h2 : d2 < 256)
    (hk : k < 24) :
    (flip_bit d0 d1 d2 k).1 < 256 ∧ (flip_bit d0 d1 d2 k).2.1 < 256
      ∧ (flip_bit d0 d1 d2 k).2.2 < 256 := by
  obtain ⟨e0, e1, e2⟩ := flip_bit_zero_lt k hk
  rw [flip_bit_eq_xor]
  exact ⟨Nat.xor_lt_two_pow (n := 8) h0 e0, Nat.xor_lt_two_pow (n := 8) h1 e1,
    Nat.xor_lt_two_pow (n := 8) h2 e2⟩

set_option maxRecDepth 100000 in
theorem single_bit_syndrome_ne_zero : ∀ k < 24,
    residual_from 0 (flip_bit 0 0 0 k).1 (flip_bit 0 0 0 k).2.1 (flip_bit 0 0 0 k).2.2 ≠ 0 := by
  decide!

theorem residual_flip_bit (d0 d1 d2 k : Nat) :
    residual_from 0x25 (flip_bit d0 d1 d2 k).1 (flip_bit d0 d1 d2 k).2.1 (flip_bit d0 d1 d2 k).2.2
      = residual_from 0x25 d0 d1 d2
        ^^^ residual_from 0 (flip_bit 0 0 0 k).1 (flip_bit 0 0 0 k).2.1 (flip_bit 0 0 0 k).2.2 := by
  rw [flip_bit_eq_xor d0 d1 d2 k, ← residual_from_xor, Nat.xor_zero]

theorem residual_flip_bit_ne_zero (d0 d1 d2 k : Nat) (hk : k < 24)
    (hv : residual_from 0x25 d0 d1 d2 = 0) :
    residual_from 0x25 (flip_bit d0 d1 d2 k).1 (flip_bit d0 d1 d2 k).2.1
      (flip_bit d0 d1 d2 k).2.2 ≠ 0 := by
  rw [residual_flip_bit, hv, Nat.zero_xor]
  exact single_bit_syndrome_ne_zero k hk

theorem zero_beq_eq_true (n : Nat) : (0 == n) = true ↔ n = 0 := by
  rw [beq_iff_eq]
  exact eq_comm

theorem zero_beq_eq_false (n : Nat) (h : n ≠ 0) : (0 == n) = false := by
  cases hb : (0 == n)
  · rfl
  · exact absurd ((zero_beq_eq_true n).mp hb) h

/-! # The claims -/

/-- C1: for every 3-byte frame, with the table produced by
`generate_crc6_0x67_table` (from any prior content of the 256-entry array),
`calc_crc6_0x67_table` returns the same boolean as `calc_crc6_0x67_direct`. -/
theorem table_verifier_agrees_with_direct (table : List Nat) (h : table.length = 256)
    (d0 d1 d2 : Nat) (h0 : d0 < 256) (h1 : d1 < 256) (h2 : d2 < 256) :
    calc_crc6_0x67_table (generate_crc6_0x67_table table) d0 d1 d2
      = some (calc_crc6_0x67_direct d0 d1 d2) := by
  rw [calc_table_eq table h d0 d1 d2 h0 h1 h2, calc_direct_eq]

theorem table_verifier_agrees_with_direct_witness :
    calc_crc6_0x67_table (generate_crc6_0x67_table (List.replicate 256 0)) 0x12 0x34 0x56
      = some (calc_crc6_0x67_direct 0x12 0x34 0x56) :=
  table_verifier_agrees_with_direct (List.replicate 256 0) (List.length_replicate 256 0)
    0x12 0x34 0x56 (by decide) (by decide) (by decide)

theorem tested_known_good :
    tested known_good = [(0xFD, 0x42, 0xD9), (0xFD, 0x6F, 0xDC), (0xFF, 0xFD, 0xDA),
      (0xFD, 0x5D, 0xC0), (0xFD, 0x86, 0xE0)] := by
  decide

theorem tested_known_bad :
    tested known_bad = [(0xFD, 0x40, 0xD9), (0xFD, 0x6D, 0xDC), (0xFF, 0xFF, 0xDA),
      (0xF9, 0x5D, 0xC0), (0xFD, 0x86, 0xE2)] := by
  decide

set_option maxRecDepth 100000 in
theorem known_good_residual :
    ∀ f ∈ tested known_good, f.1 < 256 ∧ f.2.1 < 256 ∧ f.2.2 < 256
      ∧ (0 == residual_from 0x25 f.1 f.2.1 f.2.2) = true := by
  rw [tested_known_good]
  decide!

set_option maxRecDepth 100000 in
theorem known_bad_residual :
    ∀ f ∈ tested known_bad, f.1 < 256 ∧ f.2.1 < 256 ∧ f.2.2 < 256
      ∧ (0 == residual_from 0x25 f.1 f.2.1 f.2.2) = false := by
  rw [tested_known_bad]
  decide!

/-- C2: each of the five known-good frames `{0xFD,0x42,0xD9}`,
`{0xFD,0x6F,0xDC}`, `{0xFF,0xFD,0xDA}`, `{0xFD,0x5D,0xC0}`, `{0xFD,0x86,0xE0}`
(the vectors the test loop of `main` visits) is reported valid by
`calc_crc6_0x67_direct` and by `calc_crc6_0x67_table` on the built table. -/
theorem known_good_frames_valid (table : List Nat) (h : table.length = 256) :
    tested known_good = [(0xFD, 0x42, 0xD9), (0xFD, 0x6F, 0xDC), (0xFF, 0xFD, 0xDA),
        (0xFD, 0x5D, 0xC0), (0xFD, 0x86, 0xE0)]
      ∧ ∀ f ∈ tested known_good,
          calc_crc6_0x67_direct f.1 f.2.1 f.2.2 = true
            ∧ calc_crc6_0x67_table (generate_crc6_0x67_table table) f.1 f.2.1 f.2.2
                = some true := by
  refine ⟨tested_known_good, ?_⟩
  intro f hf
  obtain ⟨h0, h1, h2, hr⟩ := known_good_residual f hf
  rw [calc_table_eq table h f.1 f.2.1 f.2.2 h0 h1 h2, calc_direct_eq, hr]
  exact ⟨rfl, rfl⟩

theorem known_good_frames_valid_witness :
    calc_crc6_0x67_direct 0xFD 0x42 0xD9 = true
      ∧ calc_crc6_0x67_table (generate_crc6_0x67_table (List.replicate 256 0)) 0xFD 0x42 0xD9
          = some true :=
  (known_good_frames_valid (List.replicate 256 0) (List.length_replicate 256 0)).2
    (0xFD, 0x42, 0xD9) (by rw [tested_known_good]; simp)

/-- C3: each of the five known-bad frames `{0xFD,0x40,0xD9}`,
`{0xFD,0x6D,0xDC}`, `{0xFF,0xFF,0xDA}`, `{0xF9,0x5D,0xC0}`, `{0xFD,0x86,0xE2}`
(the vectors the test loop of `main` visits) is reported invalid by
`calc_crc6_0x67_direct` and by `calc_crc6_0x67_table` on the built table. -/
theorem known_bad_frames_invalid (table : List Nat) (h : table.length = 256) :
    tested known_bad = [(0xFD, 0x40, 0xD9), (0xFD, 0x6D, 0xDC), (0xFF, 0xFF, 0xDA),
        (0xF9, 0x5D, 0xC0), (0xFD, 0x86, 0xE2)]
      ∧ ∀ f ∈ tested known_bad,
          calc_crc6_0x67_direct f.1 f.2.1 f.2.2 = false
            ∧ calc_crc6_0x67_table (generate_crc6_0x67_table table) f.1 f.2.1 f.2.2
                = some false := by
  refine ⟨tested_known_bad, ?_⟩
  intro f hf
  obtain ⟨h0, h1, h2, hr⟩ := known_bad_residual f hf
  rw [calc_table_eq table h f.1 f.2.1 f.2.2 h0 h1 h2, calc_direct_eq, hr]
  exact ⟨rfl, rfl⟩

theorem known_bad_frames_invalid_witness :
    calc_crc6_0x67_direct 0xFD 0x86 0xE2 = false
      ∧ calc_crc6_0x67_table (generate_crc6_0x67_table (List.replicate 256 0)) 0xFD 0x86 0xE2
          = some false :=
  (known_bad_frames_invalid (List.replicate 256 0) (List.length_replicate 256 0)).2
    (0xFD, 0x86, 0xE2) (by rw [tested_known_bad]; simp)

/-- C4: all single-bit errors are detected: for every 3-byte frame that a
verifier reports valid and every bit position `k` in `0..23`, the frame with
bit `k` flipped is reported invalid, by `calc_crc6_0x67_table` and by
`calc_crc6_0x67_direct` alike. -/
theorem single_bit_errors_detected (table : List Nat) (h : table.length = 256)
    (d0 d1 d2 : Nat) (h0 : d0 < 256) (h1 : d1 < 256) (h2 : d2 < 256) (k : Nat) (hk : k < 24) :
    (calc_crc6_0x67_table (generate_crc6_0x67_table table) d0 d1 d2 = some true →
      calc_crc6_0x67_table (generate_crc6_0x67_table table) (flip_bit d0 d1 d2 k).1
        (flip_bit d0 d1 d2 k).2.1 (flip_bit d0 d1 d2 k).2.2 = some false)
    ∧ (calc_crc6_0x67_direct d0 d1 d2 = true →
      calc_crc6_0x67_direct (flip_bit d0 d1 d2 k).1 (flip_bit d0 d1 d2 k).2.1
        (flip_bit d0 d1 d2 k).2.2 = false) := by
  obtain ⟨e0, e1, e2⟩ := flip_bit_lt d0 d1 d2 k h0 h1 h2 hk
  rw [calc_table_eq table h d0 d1 d2 h0 h1 h2, calc_table_eq table h _ _ _ e0 e1 e2,
    calc_direct_eq, calc_direct_eq]
  constructor
  · intro hv
    have hz := (zero_beq_eq_true _).mp (Option.some.inj hv)
    rw [zero_beq_eq_false _ (residual_flip_bit_ne_zero d0 d1 d2 k hk hz)]
  · intro hv
    have hz := (zero_beq_eq_true _).mp hv
    exact zero_beq_eq_false _ (residual_flip_bit_ne_zero d0 d1 d2 k hk hz)

theorem single_bit_errors_detected_witness :
    flip_bit 0xFD 0x42 0xD9 10 = (0xFD, 0x46, 0xD9)
      ∧ calc_crc6_0x67_table (generate_crc6_0x67_table (List.replicate 256 0)) 0xFD 0x46 0xD9
          = some false
      ∧ calc_crc6_0x67_direct 0xFD 0x46 0xD9 = false :=
  have w := single_bit_errors_detected (List.replicate 256 0) (List.length_replicate 256 0)
    0xFD 0x42 0xD9 (by decide) (by decide) (by decide) 10 (by decide)
  ⟨by decide,
    w.1 ((known_good_residual (0xFD, 0x42, 0xD9) (by rw [tested_known_good]; simp)).2.2.2 ▸
      calc_table_eq (List.replicate 256 0) (List.length_replicate 256 0) 0xFD 0x42 0xD9
        (by decide) (by decide) (by decide)),
    w.2 ((known_good_residual (0xFD, 0x42, 0xD9) (by rw [tested_known_good]; simp)).2.2.2 ▸
      calc_direct_eq 0xFD 0x42 0xD9)⟩

/-- C5: both verifiers are total and the table path never indexes outside
the table: on the built table, for every 3-byte frame each of the three
indices `(crc << 2) ^ data[k]`, computed with no mask, lies in `0..255`, so
every lookup is in bounds and a boolean is returned. -/
theorem table_lookups_in_bounds (table : List Nat) (h : table.length = 256)
    (d0 d1 d2 : Nat) (h0 : d0 < 256) (h1 : d1 < 256) (h2 : d2 < 256) :
    (∃ i0 i1 i2, table_indices (generate_crc6_0x67_table table) d0 d1 d2 = some (i0, i1, i2)
        ∧ i0 < (generate_crc6_0x67_table table).length
        ∧ i1 < (generate_crc6_0x67_table table).length
        ∧ i2 < (generate_crc6_0x67_table table).length
        ∧ i0 < 256 ∧ i1 < 256 ∧ i2 < 256)
      ∧ (∃ b, calc_crc6_0x67_table (generate_crc6_0x67_table table) d0 d1 d2 = some b)
      ∧ (∃ b, calc_crc6_0x67_direct d0 d1 d2 = b) := by
  have r0 : (0x25 : Nat) < 64 := by norm_num
  have r1 := foldl_lfsr_lt (msb_bits d0) 0x25 r0
  have r2 := foldl_lfsr_lt (msb_bits d1) _ r1
  have hl : (generate_crc6_0x67_table table).length = 256 := (generate_length table).trans h
  refine ⟨⟨(0x25 <<< 2) ^^^ d0, ((msb_bits d0).foldl lfsr_step 0x25 <<< 2) ^^^ d1,
    ((msb_bits d1).foldl lfsr_step ((msb_bits d0).foldl lfsr_step 0x25) <<< 2) ^^^ d2,
    ?_, ?_⟩, ⟨_, calc_table_eq table h d0 d1 d2 h0 h1 h2⟩, ⟨_, rfl⟩⟩
  · unfold table_indices
    simp only [lookup_eq table h _ _ r0 h0, lookup_eq table h _ _ r1 h1]
  · rw [hl]
    exact ⟨index_lt _ _ r0 h0, index_lt _ _ r1 h1, index_lt _ _ r2 h2,
      index_lt _ _ r0 h0, index_lt _ _ r1 h1, index_lt _ _ r2 h2⟩

theorem table_lookups_in_bounds_witness :
    (∃ i0 i1 i2, table_indices (generate_crc6_0x67_table (List.replicate 256 0)) 0xFF 0xFF 0xFF
          = some (i0, i1, i2)
        ∧ i0 < (generate_crc6_0x67_table (List.replicate 256 0)).length
        ∧ i1 < (generate_crc6_0x67_table (List.replicate 256 0)).length
        ∧ i2 < (generate_crc6_0x67_table (List.replicate 256 0)).length
        ∧ i0 < 256 ∧ i1 < 256 ∧ i2 < 256)
      ∧ (∃ b, calc_crc6_0x67_table (generate_crc6_0x67_table (List.replicate 256 0))
          0xFF 0xFF 0xFF = some b)
      ∧ (∃ b, calc_crc6_0x67_direct 0xFF 0xFF 0xFF = b) :=
  table_lookups_in_bounds (List.replicate 256 0) (List.length_replicate 256 0)
    0xFF 0xFF 0xFF (by decide) (by decide) (by decide)

/-- C6, as worded: the built entry at index 1 is 0x27, while the algorithm
that tests the top bit (bit 15) of the 16-bit working value gives 0 there. -/
theorem spec_table_entry_differs :
    (generate_crc6_0x67_table (List.replicate 256 0))[1]? = some 0x27
      ∧ spec_table_entry 1 = 0
      ∧ (generate_crc6_0x67_table (List.replicate 256 0))[1]? ≠ some (spec_table_entry 1) := by
  have h1 : (generate_crc6_0x67_table (List.replicate 256 0))[1]? = some 0x27 := by
    rw [generate_get _ (List.length_replicate 256 0)]
    decide
  have h2 : spec_table_entry 1 = 0 := by decide
  refine ⟨h1, h2, ?_⟩
  rw [h1, h2]
  decide

/-- C6, amended: for every index `i` in `0..255` the built entry is the value
of the algorithm that starts from the 16-bit working value `i`, does 8
iterations in which the value is shifted left by one bit and XORed with
(0x67 shifted left by 2) if bit 7 (mask 0x80) of the working value is set,
and only shifted otherwise, and then takes bits [7:2]. -/
theorem table_entry_is_amended_algorithm (table : List Nat) (h : table.length = 256)
    (i : Nat) (hi : i < 256) :
    (generate_crc6_0x67_table table)[i]? = some (amended_table_entry i) := by
  rw [generate_get table h, if_pos hi, table_entry_eq_amended i hi]

theorem table_entry_is_amended_algorithm_witness :
    (generate_crc6_0x67_table (List.replicate 256 0))[1]? = some (amended_table_entry 1) :=
  table_entry_is_amended_algorithm (List.replicate 256 0) (List.length_replicate 256 0) 1
    (by decide)

/-- C7: table determinism: the builder writes all 256 entries with values
that depend only on the index, so from any two prior contents the built
tables are identical 256-entry tables, and building again changes nothing. -/
theorem table_build_deterministic (t1 t2 : List Nat) (h1 : t1.length = 256)
    (h2 : t2.length = 256) :
    generate_crc6_0x67_table t1 = generate_crc6_0x67_table t2
      ∧ (generate_crc6_0x67_table t1).length = 256
      ∧ (∀ i < 256, (generate_crc6_0x67_table t1)[i]? = some (table_entry i))
      ∧ generate_crc6_0x67_table (generate_crc6_0x67_table t1) = generate_crc6_0x67_table t1 := by
  have hl : (generate_crc6_0x67_table t1).length = 256 := (generate_length t1).trans h1
  refine ⟨?_, hl, ?_, ?_⟩
  · rw [generate_eq_map t1 h1, generate_eq_map t2 h2]
  · intro i hi
    rw [generate_get t1 h1, if_pos hi]
  · rw [generate_eq_map _ hl, generate_eq_map t1 h1]

theorem table_build_deterministic_witness :
    generate_crc6_0x67_table (List.replicate 256 0)
        = generate_crc6_0x67_table (List.replicate 256 0xFF)
      ∧ (generate_crc6_0x67_table (List.replicate 256 0)).length = 256
      ∧ (∀ i < 256, (generate_crc6_0x67_table (List.replicate 256 0))[i]?
          = some (table_entry i))
      ∧ generate_crc6_0x67_table (generate_crc6_0x67_table (List.replicate 256 0))
          = generate_crc6_0x67_table (List.replicate 256 0) :=
  table_build_deterministic (List.replicate 256 0) (List.replicate 256 0xFF)
    (List.length_replicate 256 0) (List.length_replicate 256 0xFF)

/-- C8: every one of the 256 entries of the built table is a six-bit value,
that is, lies in `0..63`. -/
theorem table_entries_six_bit (table : List Nat) (h : table.length = 256) :
    (generate_crc6_0x67_table table).length = 256
      ∧ (∀ i < 256, ∃ v, (generate_crc6_0x67_table table)[i]? = some v ∧ v < 64)
      ∧ ∀ v ∈ generate_crc6_0x67_table table, v < 64 := by
  refine ⟨(generate_length table).trans h, ?_, ?_⟩
  · intro i hi
    exact ⟨table_entry i, by rw [generate_get table h, if_pos hi], table_entry_lt i⟩
  · intro v hv
    rw [generate_eq_map table h, List.mem_map] at hv
    obtain ⟨i, _, rfl⟩ := hv
    exact table_entry_lt i

theorem table_entries_six_bit_witness :
    (generate_crc6_0x67_table (List.replicate 256 0xFF)).length = 256
      ∧ (∀ i < 256, ∃ v, (generate_crc6_0x67_table (List.replicate 256 0xFF))[i]? = some v
          ∧ v < 64)
      ∧ ∀ v ∈ generate_crc6_0x67_table (List.replicate 256 0xFF), v < 64 :=
  table_entries_six_bit (List.replicate 256 0xFF) (List.length_replicate 256 0xFF)

/-- C9: one table lookup equals 8 bit-serial division steps: for every 6-bit
register value `r` and every byte `b`, the built table at `(r << 2) ^ b`
holds the register obtained from `r` by 8 successive single-bit steps of
`lfsr_step` that consume the bits of `b` most significant first. -/
theorem lookup_is_eight_lfsr_steps (table : List Nat) (h : table.length = 256) (r b : Nat)
    (hr : r < 64) (hb : b < 256) :
    (generate_crc6_0x67_table table)[(r <<< 2) ^^^ b]?
      = some (lfsr_step (lfsr_step (lfsr_step (lfsr_step (lfsr_step (lfsr_step (lfsr_step
          (lfsr_step r (b.testBit 7)) (b.testBit 6)) (b.testBit 5)) (b.testBit 4))
          (b.testBit 3)) (b.testBit 2)) (b.testBit 1)) (b.testBit 0)) :=
  lookup_eq table h r b hr hb

theorem lookup_is_eight_lfsr_steps_witness :
    (generate_crc6_0x67_table (List.replicate 256 0))[(0x25 <<< 2) ^^^ 0xFD]?
      = some (lfsr_step (lfsr_step (lfsr_step (lfsr_step (lfsr_step (lfsr_step (lfsr_step
          (lfsr_step 0x25 (Nat.testBit 0xFD 7)) (Nat.testBit 0xFD 6)) (Nat.testBit 0xFD 5))
          (Nat.testBit 0xFD 4)) (Nat.testBit 0xFD 3)) (Nat.testBit 0xFD 2))
          (Nat.testBit 0xFD 1)) (Nat.testBit 0xFD 0)) :=
  lookup_is_eight_lfsr_steps (List.replicate 256 0) (List.length_replicate 256 0) 0x25 0xFD
    (by decide) (by decide)

/-- C10: the 6-bit-wide transition of `calc_crc6_0x67_direct` is the unrolling
of 6 single-bit steps: for every previous state `ch` and input group `d`, the
new `c[0..5]`, read as the number with `c[i]` as bit `i`, is the result of 6
successive steps of `lfsr_step` on the number of `ch`, consuming `d[0]` first
and `d[5]` last. -/
theorem direct_step_is_six_lfsr_steps (ch : CState) (d : DVec) :
    (direct_step ch d).toNat
      = lfsr_step (lfsr_step (lfsr_step (lfsr_step (lfsr_step (lfsr_step ch.toNat d.d0) d.d1)
          d.d2) d.d3) d.d4) d.d5 :=
  direct_step_toNat ch d

/-! ## The frame as a 24-bit value -/

theorem word_frame_bits (F : Nat) :
    frame_bits (word_frame F).1 (word_frame F).2.1 (word_frame F).2.2 = word_bits F := by
  have e16 : (65536 : Nat) = 2 ^ 16 := by norm_num
  have e8 : (256 : Nat) = 2 ^ 8 := by norm_num
  simp only [word_frame, frame_bits, msb_bits, word_bits, List.cons_append, List.nil_append]
  rw [e16, e8]
  simp only [← Nat.shiftRight_eq_div_pow, Nat.testBit_mod_two_pow, Nat.testBit_shiftRight]
  simp

theorem word_frame_frame_word (d0 d1 d2 : Nat) (h1 : d1 < 256) (h2 : d2 < 256) :
    word_frame (frame_word d0 d1 d2) = (d0, d1, d2) := by
  unfold word_frame frame_word
  have a : (d0 * 65536 + d1 * 256 + d2) / 65536 = d0 := by omega
  have b : (d0 * 65536 + d1 * 256 + d2) / 256 % 256 = d1 := by omega
  have c : (d0 * 65536 + d1 * 256 + d2) % 256 = d2 := by omega
  rw [a, b, c]

theorem frame_word_bits (d0 d1 d2 : Nat) (h1 : d1 < 256) (h2 : d2 < 256) :
    word_bits (frame_word d0 d1 d2) = frame_bits d0 d1 d2 := by
  rw [← word_frame_bits, word_frame_frame_word d0 d1 d2 h1 h2]

theorem frame_word_lt (d0 d1 d2 : Nat) (h0 : d0 < 256) (h1 : d1 < 256) (h2 : d2 < 256) :
    frame_word d0 d1 d2 < 2 ^ 24 := by
  unfold frame_word
  omega

theorem word_frame_lt (F : Nat) (h : F < 2 ^ 24) :
    (word_frame F).1 < 256 ∧ (word_frame F).2.1 < 256 ∧ (word_frame F).2.2 < 256 := by
  unfold word_frame
  refine ⟨?_, ?_, ?_⟩ <;> simp only <;> omega

theorem residual_word_frame (r F : Nat) :
    residual_from r (word_frame F).1 (word_frame F).2.1 (word_frame F).2.2
      = (word_bits F).foldl lfsr_step r := by
  unfold residual_from
  rw [word_frame_bits]

theorem frame_word_testBits (d0 d1 d2 : Nat) (h1 : d1 < 256) (h2 : d2 < 256) :
    word_bits (frame_word d0 d1 d2)
      = [bit d0 7, bit d0 6, bit d0 5, bit d0 4, bit d0 3, bit d0 2, bit d0 1, bit d0 0,
         bit d1 7, bit d1 6, bit d1 5, bit d1 4, bit d1 3, bit d1 2, bit d1 1, bit d1 0,
         bit d2 7, bit d2 6, bit d2 5, bit d2 4, bit d2 3, bit d2 2, bit d2 1, bit d2 0] := by
  rw [frame_word_bits d0 d1 d2 h1 h2]
  simp only [frame_bits, msb_bits, bit_eq_testBit, List.cons_append, List.nil_append]

theorem slice_toList_get (d0 d1 d2 : Nat) (h1 : d1 < 256) (h2 : d2 < 256) (d : DVec)
    (s k : Nat) (hs : s < 4) (hk : k < 6) :
    (slice s d0 d1 d2 d).toList[k]? = some ((frame_word d0 d1 d2).testBit (23 - 6 * s - k)) := by
  have hw := frame_word_testBits d0 d1 d2 h1 h2
  simp only [word_bits, List.cons.injEq, and_true] at hw
  obtain ⟨a23, a22, a21, a20, a19, a18, a17, a16, a15, a14, a13, a12, a11, a10, a9, a8, a7, a6,
    a5, a4, a3, a2, a1, a0⟩ := hw
  interval_cases s <;> interval_cases k <;>
    simp only [slice, DVec.toList, List.getElem?_cons_zero, List.getElem?_cons_succ, *]

/-! ## The register of the bit-serial verifier as a number -/

theorem toNat_testBits_aux :
    ∀ c0 c1 c2 c3 c4 c5 : Bool,
      (CState.toNat ⟨c0, c1, c2, c3, c4, c5, false⟩).testBit 0 = c0
        ∧ (CState.toNat ⟨c0, c1, c2, c3, c4, c5, false⟩).testBit 1 = c1
        ∧ (CState.toNat ⟨c0, c1, c2, c3, c4, c5, false⟩).testBit 2 = c2
        ∧ (CState.toNat ⟨c0, c1, c2, c3, c4, c5, false⟩).testBit 3 = c3
        ∧ (CState.toNat ⟨c0, c1, c2, c3, c4, c5, false⟩).testBit 4 = c4
        ∧ (CState.toNat ⟨c0, c1, c2, c3, c4, c5, false⟩).testBit 5 = c5 := by
  decide

theorem toNat_testBits (c : CState) :
    c.toNat.testBit 0 = c.c0 ∧ c.toNat.testBit 1 = c.c1 ∧ c.toNat.testBit 2 = c.c2
      ∧ c.toNat.testBit 3 = c.c3 ∧ c.toNat.testBit 4 = c.c4 ∧ c.toNat.testBit 5 = c.c5 :=
  toNat_testBits_aux c.c0 c.c1 c.c2 c.c3 c.c4 c.c5

theorem toNat_lt (c : CState) : c.toNat < 64 := by
  unfold CState.toNat
  have h0 := Bool.toNat_le c.c0
  have h1 := Bool.toNat_le c.c1
  have h2 := Bool.toNat_le c.c2
  have h3 := Bool.toNat_le c.c3
  have h4 := Bool.toNat_le c.c4
  have h5 := Bool.toNat_le c.c5
  omega

theorem direct_step_c6_irrelevant (ch : CState) (d : DVec) (b : Bool) :
    direct_step { ch with c6 := b } d = direct_step ch d := rfl

theorem direct_final_from_c6_irrelevant (c : CState) (d0 d1 d2 : Nat) (b : Bool) :
    direct_final_from { c with c6 := b } d0 d1 d2 = direct_final_from c d0 d1 d2 := rfl

/-! ## The table is linear over exclusive-or -/

theorem table_entry_xor (a b : Nat) (ha : a < 256) (hb : b < 256) :
    table_entry (a ^^^ b) = table_entry a ^^^ table_entry b := by
  rw [table_entry_eq_foldl_zero _ (Nat.xor_lt_two_pow (n := 8) ha hb),
    table_entry_eq_foldl_zero a ha, table_entry_eq_foldl_zero b hb, foldl_split]

/-! ## Check bits against the register after the data bits -/

theorem word_bits_split (u l : Nat) (hl : l < 64) :
    word_bits (64 * u + l) = data_bits u ++ check_bits l := by
  have e : (64 : Nat) = 2 ^ 6 := by norm_num
  have hl6 : l < 2 ^ 6 := by omega
  rw [e]
  simp only [word_bits, data_bits, check_bits, List.cons_append, List.nil_append,
    Nat.testBit_mul_pow_two_add u hl6]
  simp

theorem check_bits_length (l : Nat) : (check_bits l).length = 6 := rfl

theorem check_bits_xor (a b : Nat) :
    check_bits (a ^^^ b) = List.zipWith xor (check_bits a) (check_bits b) := by
  simp only [check_bits, Nat.testBit_xor, List.zipWith_cons_cons, List.zipWith_nil_right]

set_option maxRecDepth 100000 in
theorem foldl_check_bits_self : ∀ l < 64, (check_bits l).foldl lfsr_step l = 0 := by
  decide!

set_option maxRecDepth 100000 in
theorem foldl_check_bits_zero_ne : ∀ e < 64, e ≠ 0 → (check_bits 0).foldl lfsr_step e ≠ 0 := by
  decide!

theorem foldl_check_bits_eq (r l : Nat) (hl : l < 64) :
    (check_bits l).foldl lfsr_step r = (check_bits 0).foldl lfsr_step (r ^^^ l) := by
  have h := foldl_lfsr_xor (check_bits 0) (check_bits l)
    ((check_bits_length 0).trans (check_bits_length l).symm) (r ^^^ l) l
  rw [← check_bits_xor, Nat.zero_xor, Nat.xor_cancel_right, foldl_check_bits_self l hl,
    Nat.xor_zero] at h
  exact h

theorem foldl_check_bits_eq_zero_iff (r l : Nat) (hr : r < 64) (hl : l < 64) :
    (check_bits l).foldl lfsr_step r = 0 ↔ l = r := by
  rw [foldl_check_bits_eq r l hl]
  constructor
  · intro h
    by_contra hne
    have hx : r ^^^ l ≠ 0 := fun h0 => hne (Nat.xor_eq_zero.mp h0).symm
    exact foldl_check_bits_zero_ne (r ^^^ l) (Nat.xor_lt_two_pow (n := 6) hr hl) hx h
  · intro h
    rw [h, Nat.xor_self]
    rfl

theorem check_value_lt (u : Nat) : check_value u < 64 :=
  foldl_lfsr_lt _ _ (by norm_num)

theorem residual_split (u l : Nat) (hl : l < 64) :
    residual_from 0x25 (word_frame (64 * u + l)).1 (word_frame (64 * u + l)).2.1
      (word_frame (64 * u + l)).2.2 = (check_bits l).foldl lfsr_step (check_value u) := by
  rw [residual_word_frame, word_bits_split u l hl, List.foldl_append]
  rfl

theorem residual_eq_zero_iff (u l : Nat) (hl : l < 64) :
    residual_from 0x25 (word_frame (64 * u + l)).1 (word_frame (64 * u + l)).2.1
      (word_frame (64 * u + l)).2.2 = 0 ↔ l = check_value u := by
  rw [residual_split u l hl, foldl_check_bits_eq_zero_iff _ _ (check_value_lt u) hl]

theorem direct_valid_iff (u l : Nat) (hl : l < 64) :
    calc_crc6_0x67_direct (word_frame (64 * u + l)).1 (word_frame (64 * u + l)).2.1
      (word_frame (64 * u + l)).2.2 = true ↔ l = check_value u := by
  rw [calc_direct_eq, zero_beq_eq_true, residual_eq_zero_iff u l hl]

theorem table_valid_iff (table : List Nat) (h : table.length = 256) (u l : Nat)
    (hu : u < 2 ^ 18) (hl : l < 64) :
    calc_crc6_0x67_table (generate_crc6_0x67_table table) (word_frame (64 * u + l)).1
      (word_frame (64 * u + l)).2.1 (word_frame (64 * u + l)).2.2 = some true
      ↔ l = check_value u := by
  obtain ⟨b0, b1, b2⟩ := word_frame_lt (64 * u + l) (by omega)
  rw [calc_table_eq table h _ _ _ b0 b1 b2, Option.some.injEq, zero_beq_eq_true,
    residual_eq_zero_iff u l hl]

theorem valid_words_eq_image (p : Nat → Prop) [DecidablePred p]
    (hp : ∀ u l, u < 2 ^ 18 → l < 64 → (p (64 * u + l) ↔ l = check_value u)) :
    (Finset.range (2 ^ 24)).filter p
      = (Finset.range (2 ^ 18)).image (fun u => 64 * u + check_value u) := by
  ext F
  simp only [Finset.mem_filter, Finset.mem_range, Finset.mem_image]
  constructor
  · rintro ⟨hF, hpF⟩
    have hu : F / 64 < 2 ^ 18 := by omega
    have hl : F % 64 < 64 := Nat.mod_lt _ (by norm_num)
    have hF2 : 64 * (F / 64) + F % 64 = F := Nat.div_add_mod F 64
    rw [← hF2] at hpF
    have := (hp _ _ hu hl).mp hpF
    exact ⟨F / 64, hu, by omega⟩
  · rintro ⟨u, hu, rfl⟩
    have hl := check_value_lt u
    exact ⟨by omega, (hp u _ hu hl).mpr rfl⟩

theorem valid_words_card (p : Nat → Prop) [DecidablePred p]
    (hp : ∀ u l, u < 2 ^ 18 → l < 64 → (p (64 * u + l) ↔ l = check_value u)) :
    ((Finset.range (2 ^ 24)).filter p).card = 2 ^ 18 := by
  rw [valid_words_eq_image p hp, Finset.card_image_of_injective, Finset.card_range]
  intro a b hab
  have ha := check_value_lt a
  have hb := check_value_lt b
  simp only at hab
  omega

/-! ## Flipping two bits of the frame -/

set_option maxRecDepth 100000 in
theorem single_bit_syndromes_distinct : ∀ j < 24, ∀ k < 24, j ≠ k →
    residual_from 0 (flip_bit 0 0 0 j).1 (flip_bit 0 0 0 j).2.1 (flip_bit 0 0 0 j).2.2
      ≠ residual_from 0 (flip_bit 0 0 0 k).1 (flip_bit 0 0 0 k).2.1 (flip_bit 0 0 0 k).2.2 := by
  decide!

theorem residual_flip_two_ne_zero (d0 d1 d2 j k : Nat) (hj : j < 24) (hk : k < 24)
    (hjk : j ≠ k) (hv : residual_from 0x25 d0 d1 d2 = 0) :
    residual_from 0x25
      (flip_bit (flip_bit d0 d1 d2 j).1 (flip_bit d0 d1 d2 j).2.1 (flip_bit d0 d1 d2 j).2.2 k).1
      (flip_bit (flip_bit d0 d1 d2 j).1 (flip_bit d0 d1 d2 j).2.1 (flip_bit d0 d1 d2 j).2.2 k).2.1
      (flip_bit (flip_bit d0 d1 d2 j).1 (flip_bit d0 d1 d2 j).2.1 (flip_bit d0 d1 d2 j).2.2 k).2.2
      ≠ 0 := by
  rw [residual_flip_bit, residual_flip_bit, hv, Nat.zero_xor]
  intro h
  exact single_bit_syndromes_distinct j hj k hk hjk (Nat.xor_eq_zero.mp h)

/-! ## Error patterns inside a window of six bits -/

theorem lfsr_step_zero_false : lfsr_step 0 false = 0 := by decide

set_option maxRecDepth 100000 in
theorem lfsr_step_false_ne_zero : ∀ r < 64, r ≠ 0 → lfsr_step r false ≠ 0 := by
  decide!

theorem word_bits_double (W : Nat) (hW : W < 2 ^ 23) :
    word_bits (2 * W) = (word_bits W).tail ++ [false] ∧ word_bits W = false :: (word_bits W).tail := by
  have h23 : W.testBit 23 = false := Nat.testBit_lt_two_pow hW
  have hs : ∀ i, (2 * W).testBit (i + 1) = W.testBit i := by
    intro i
    rw [Nat.testBit_succ, Nat.mul_div_cancel_left W (by norm_num)]
  have h0 : (2 * W).testBit 0 = false := by
    rw [Nat.testBit_zero]
    simp
  constructor
  · simp only [word_bits, List.tail_cons, List.cons_append, List.nil_append, hs, h0]
  · simp only [word_bits, List.tail_cons, h23]

theorem syndrome_double (W : Nat) (hW : W < 2 ^ 23) :
    (word_bits (2 * W)).foldl lfsr_step 0
      = lfsr_step ((word_bits W).foldl lfsr_step 0) false := by
  obtain ⟨h1, h2⟩ := word_bits_double W hW
  rw [h1, List.foldl_append, List.foldl_cons, List.foldl_nil]
  conv_rhs => rw [h2, List.foldl_cons, lfsr_step_zero_false]

theorem syndrome_shift_ne_zero (b p : Nat) (hb : (word_bits b).foldl lfsr_step 0 ≠ 0)
    (hlt : b * 2 ^ p < 2 ^ 24) : (word_bits (b * 2 ^ p)).foldl lfsr_step 0 ≠ 0 := by
  induction p with
  | zero => simpa using hb
  | succ p ih =>
    have e : b * 2 ^ (p + 1) = 2 * (b * 2 ^ p) := by rw [Nat.pow_succ]; ring
    have hW : b * 2 ^ p < 2 ^ 23 := by rw [e] at hlt; omega
    rw [e, syndrome_double _ hW]
    exact lfsr_step_false_ne_zero _ (foldl_lfsr_lt _ 0 (by norm_num)) (ih (by omega))

theorem foldl_data_bits_zero : (data_bits 0).foldl lfsr_step 0 = 0 := by
  decide

theorem syndrome_low_ne_zero (b : Nat) (hb : b < 64) (hne : b ≠ 0) :
    (word_bits b).foldl lfsr_step 0 ≠ 0 := by
  have h := word_bits_split 0 b hb
  rw [Nat.mul_zero, Nat.zero_add] at h
  rw [h, List.foldl_append, foldl_data_bits_zero]
  intro hz
  exact hne ((foldl_check_bits_eq_zero_iff 0 b (by norm_num) hb).mp hz)

theorem window_pattern (e p : Nat)
    (hw : ∀ i, e.testBit i = true → p ≤ i ∧ i < p + 6) :
    e = (e >>> p) * 2 ^ p ∧ e >>> p < 64 := by
  constructor
  · rw [← Nat.shiftLeft_eq]
    apply Nat.eq_of_testBit_eq
    intro i
    rw [Nat.testBit_shiftLeft, Nat.testBit_shiftRight]
    by_cases hi : i ≥ p
    · have : p + (i - p) = i := by omega
      simp [hi, this]
    · have : e.testBit i = false := by
        cases hb : e.testBit i
        · rfl
        · exact absurd (hw i hb).1 hi
      simp [hi, this]
  · apply Nat.lt_pow_two_of_testBit (n := 6)
    intro i hi
    rw [Nat.testBit_shiftRight]
    cases hb : e.testBit (p + i)
    · rfl
    · have := (hw _ hb).2
      omega

theorem window_syndrome_ne_zero (e p : Nat) (he : e ≠ 0) (hp : p + 6 ≤ 24)
    (hw : ∀ i, e.testBit i = true → p ≤ i ∧ i < p + 6) :
    e < 2 ^ 24 ∧ (word_bits e).foldl lfsr_step 0 ≠ 0 := by
  obtain ⟨h1, h2⟩ := window_pattern e p hw
  have hb0 : e >>> p ≠ 0 := by
    intro h0
    rw [h0, Nat.zero_mul] at h1
    exact he h1
  have hpow : 2 ^ p ≤ 2 ^ 18 := Nat.pow_le_pow_right (by norm_num) (by omega)
  have hlt : (e >>> p) * 2 ^ p < 2 ^ 24 := by
    calc (e >>> p) * 2 ^ p ≤ 63 * 2 ^ 18 := Nat.mul_le_mul (by omega) hpow
      _ < 2 ^ 24 := by norm_num
  constructor
  · rw [h1]; exact hlt
  · rw [h1]
    exact syndrome_shift_ne_zero _ p (syndrome_low_ne_zero _ h2 hb0) hlt

theorem residual_xor_pattern (d0 d1 d2 e : Nat) :
    residual_from 0x25 (xor_pattern d0 d1 d2 e).1 (xor_pattern d0 d1 d2 e).2.1
      (xor_pattern d0 d1 d2 e).2.2
      = residual_from 0x25 d0 d1 d2 ^^^ (word_bits e).foldl lfsr_step 0 := by
  have h := residual_from_xor 0x25 0 d0 d1 d2 (word_frame e).1 (word_frame e).2.1
    (word_frame e).2.2
  rw [Nat.xor_zero, residual_word_frame] at h
  exact h

theorem xor_pattern_lt (d0 d1 d2 e : Nat) (h0 : d0 < 256) (h1 : d1 < 256) (h2 : d2 < 256)
    (he : e < 2 ^ 24) :
    (xor_pattern d0 d1 d2 e).1 < 256 ∧ (xor_pattern d0 d1 d2 e).2.1 < 256
      ∧ (xor_pattern d0 d1 d2 e).2.2 < 256 := by
  obtain ⟨e0, e1, e2⟩ := word_frame_lt e he
  exact ⟨Nat.xor_lt_two_pow (n := 8) h0 e0, Nat.xor_lt_two_pow (n := 8) h1 e1,
    Nat.xor_lt_two_pow (n := 8) h2 e2⟩

theorem window_of_shift (b p : Nat) (hb : b < 64) :
    ∀ i, (b * 2 ^ p).testBit i = true → p ≤ i ∧ i < p + 6 := by
  intro i hi
  rw [← Nat.shiftLeft_eq, Nat.testBit_shiftLeft, Bool.and_eq_true, decide_eq_true_eq] at hi
  refine ⟨hi.1, ?_⟩
  by_contra hge
  have h6 : b < 2 ^ (i - p) :=
    Nat.lt_of_lt_of_le (by omega : b < 2 ^ 6) (Nat.pow_le_pow_right (by norm_num) (by omega))
  have hf := Nat.testBit_lt_two_pow h6
  rw [hi.2] at hf
  exact Bool.noConfusion hf

/-! # The claims on slicing, residuals and error patterns -/

/-- C11: input slicing of `calc_crc6_0x67_direct`: with
`F = data[0]*65536 + data[1]*256 + data[2]`, for every frame, every step `s`
in `0..3` and every `k` in `0..5`, the input bit `d[k]` of step `s` is bit
`23 - 6*s - k` of `F`. -/
theorem direct_input_slicing (d0 d1 d2 : Nat) (h0 : d0 < 256) (h1 : d1 < 256) (h2 : d2 < 256)
    (d : DVec) (s k : Nat) (hs : s < 4) (hk : k < 6) :
    frame_word d0 d1 d2 < 2 ^ 24
      ∧ (slice s d0 d1 d2 d).toList[k]?
          = some ((frame_word d0 d1 d2).testBit (23 - 6 * s - k)) :=
  ⟨frame_word_lt d0 d1 d2 h0 h1 h2, slice_toList_get d0 d1 d2 h1 h2 d s k hs hk⟩

theorem direct_input_slicing_witness :
    frame_word 0xFD 0x42 0xD9 < 2 ^ 24
      ∧ (slice 2 0xFD 0x42 0xD9 ⟨false, false, false, false, false, false⟩).toList[4]?
          = some ((frame_word 0xFD 0x42 0xD9).testBit (23 - 6 * 2 - 4)) :=
  direct_input_slicing 0xFD 0x42 0xD9 (by decide) (by decide) (by decide)
    ⟨false, false, false, false, false, false⟩ 2 4 (by decide) (by decide)

/-- C12: for every 3-byte frame the two paths end in the same residual: the
final register `crc` of `calc_crc6_0x67_table` is the number whose bit `i` is
the final `c[i]` of `calc_crc6_0x67_direct`, for `i` in `0..5`. -/
theorem final_registers_agree (table : List Nat) (h : table.length = 256)
    (d0 d1 d2 : Nat) (h0 : d0 < 256) (h1 : d1 < 256) (h2 : d2 < 256) :
    ∃ crc, crc_table (generate_crc6_0x67_table table) d0 d1 d2 = some crc
      ∧ crc = (direct_final_from c_init d0 d1 d2).toNat
      ∧ crc < 64
      ∧ crc.testBit 0 = (direct_final_from c_init d0 d1 d2).c0
      ∧ crc.testBit 1 = (direct_final_from c_init d0 d1 d2).c1
      ∧ crc.testBit 2 = (direct_final_from c_init d0 d1 d2).c2
      ∧ crc.testBit 3 = (direct_final_from c_init d0 d1 d2).c3
      ∧ crc.testBit 4 = (direct_final_from c_init d0 d1 d2).c4
      ∧ crc.testBit 5 = (direct_final_from c_init d0 d1 d2).c5 := by
  refine ⟨(direct_final_from c_init d0 d1 d2).toNat, ?_, rfl, toNat_lt _, toNat_testBits _⟩
  rw [crc_table_eq table h d0 d1 d2 h0 h1 h2, direct_final_from_toNat, c_init_toNat]

theorem final_registers_agree_witness :
    ∃ crc, crc_table (generate_crc6_0x67_table (List.replicate 256 0)) 0x12 0x34 0x56 = some crc
      ∧ crc = (direct_final_from c_init 0x12 0x34 0x56).toNat
      ∧ crc < 64
      ∧ crc.testBit 0 = (direct_final_from c_init 0x12 0x34 0x56).c0
      ∧ crc.testBit 1 = (direct_final_from c_init 0x12 0x34 0x56).c1
      ∧ crc.testBit 2 = (direct_final_from c_init 0x12 0x34 0x56).c2
      ∧ crc.testBit 3 = (direct_final_from c_init 0x12 0x34 0x56).c3
      ∧ crc.testBit 4 = (direct_final_from c_init 0x12 0x34 0x56).c4
      ∧ crc.testBit 5 = (direct_final_from c_init 0x12 0x34 0x56).c5 :=
  final_registers_agree (List.replicate 256 0) (List.length_replicate 256 0) 0x12 0x34 0x56
    (by decide) (by decide) (by decide)

/-- C13: the check bits are a function of the data bits: for every 18-bit
value `u` of the bits 23..6 exactly one value `l` of the bits 5..0 (namely
`check_value u`) makes the frame valid, under `calc_crc6_0x67_table` and under
`calc_crc6_0x67_direct`; hence exactly 2^18 of the 2^24 frames are valid. -/
theorem check_bits_determined (table : List Nat) (h : table.length = 256) :
    (∀ u < 2 ^ 18,
        (∃! l, l < 64 ∧ calc_crc6_0x67_table (generate_crc6_0x67_table table)
            (word_frame (64 * u + l)).1 (word_frame (64 * u + l)).2.1
            (word_frame (64 * u + l)).2.2 = some true)
        ∧ (∃! l, l < 64 ∧ calc_crc6_0x67_direct (word_frame (64 * u + l)).1
            (word_frame (64 * u + l)).2.1 (word_frame (64 * u + l)).2.2 = true))
      ∧ ((Finset.range (2 ^ 24)).filter (fun F =>
            calc_crc6_0x67_table (generate_crc6_0x67_table table) (word_frame F).1
              (word_frame F).2.1 (word_frame F).2.2 = some true)).card = 2 ^ 18
      ∧ ((Finset.range (2 ^ 24)).filter (fun F =>
            calc_crc6_0x67_direct (word_frame F).1 (word_frame F).2.1 (word_frame F).2.2
              = true)).card = 2 ^ 18 := by
  refine ⟨?_, ?_, ?_⟩
  · intro u hu
    constructor
    · refine ⟨check_value u,
        ⟨check_value_lt u, (table_valid_iff table h u _ hu (check_value_lt u)).mpr rfl⟩, ?_⟩
      rintro l ⟨hl, hv⟩
      exact (table_valid_iff table h u l hu hl).mp hv
    · refine ⟨check_value u,
        ⟨check_value_lt u, (direct_valid_iff u _ (check_value_lt u)).mpr rfl⟩, ?_⟩
      rintro l ⟨hl, hv⟩
      exact (direct_valid_iff u l hl).mp hv
  · exact valid_words_card _ (fun u l hu hl => table_valid_iff table h u l hu hl)
  · exact valid_words_card _ (fun u l _ hl => direct_valid_iff u l hl)

theorem check_bits_determined_witness :
    ((Finset.range (2 ^ 24)).filter (fun F =>
        calc_crc6_0x67_table (generate_crc6_0x67_table (List.replicate 256 0)) (word_frame F).1
          (word_frame F).2.1 (word_frame F).2.2 = some true)).card = 2 ^ 18 :=
  (check_bits_determined (List.replicate 256 0) (List.length_replicate 256 0)).2.1

/-- C14: all double-bit errors within a frame are detected: for every 3-byte
frame reported valid and every two distinct bit positions `j`, `k` in `0..23`,
the frame with both bits flipped is reported invalid by
`calc_crc6_0x67_table` and by `calc_crc6_0x67_direct`. -/
theorem double_bit_errors_detected (table : List Nat) (h : table.length = 256)
    (d0 d1 d2 : Nat) (h0 : d0 < 256) (h1 : d1 < 256) (h2 : d2 < 256)
    (j k : Nat) (hj : j < 24) (hk : k < 24) (hjk : j ≠ k) :
    (calc_crc6_0x67_table (generate_crc6_0x67_table table) d0 d1 d2 = some true →
      calc_crc6_0x67_table (generate_crc6_0x67_table table)
        (flip_bit (flip_bit d0 d1 d2 j).1 (flip_bit d0 d1 d2 j).2.1 (flip_bit d0 d1 d2 j).2.2 k).1
        (flip_bit (flip_bit d0 d1 d2 j).1 (flip_bit d0 d1 d2 j).2.1 (flip_bit d0 d1 d2 j).2.2
          k).2.1
        (flip_bit (flip_bit d0 d1 d2 j).1 (flip_bit d0 d1 d2 j).2.1 (flip_bit d0 d1 d2 j).2.2
          k).2.2 = some false)
    ∧ (calc_crc6_0x67_direct d0 d1 d2 = true →
      calc_crc6_0x67_direct
        (flip_bit (flip_bit d0 d1 d2 j).1 (flip_bit d0 d1 d2 j).2.1 (flip_bit d0 d1 d2 j).2.2 k).1
        (flip_bit (flip_bit d0 d1 d2 j).1 (flip_bit d0 d1 d2 j).2.1 (flip_bit d0 d1 d2 j).2.2
          k).2.1
        (flip_bit (flip_bit d0 d1 d2 j).1 (flip_bit d0 d1 d2 j).2.1 (flip_bit d0 d1 d2 j).2.2
          k).2.2 = false) := by
  obtain ⟨a0, a1, a2⟩ := flip_bit_lt d0 d1 d2 j h0 h1 h2 hj
  obtain ⟨e0, e1, e2⟩ := flip_bit_lt _ _ _ k a0 a1 a2 hk
  rw [calc_table_eq table h d0 d1 d2 h0 h1 h2, calc_table_eq table h _ _ _ e0 e1 e2,
    calc_direct_eq, calc_direct_eq]
  constructor
  · intro hv
    have hz := (zero_beq_eq_true _).mp (Option.some.inj hv)
    rw [zero_beq_eq_false _ (residual_flip_two_ne_zero d0 d1 d2 j k hj hk hjk hz)]
  · intro hv
    have hz := (zero_beq_eq_true _).mp hv
    exact zero_beq_eq_false _ (residual_flip_two_ne_zero d0 d1 d2 j k hj hk hjk hz)

theorem double_bit_errors_detected_witness :
    flip_bit (flip_bit 0xFD 0x42 0xD9 10).1 (flip_bit 0xFD 0x42 0xD9 10).2.1
        (flip_bit 0xFD 0x42 0xD9 10).2.2 23 = (0x7D, 0x46, 0xD9)
      ∧ calc_crc6_0x67_table (generate_crc6_0x67_table (List.replicate 256 0)) 0x7D 0x46 0xD9
          = some false
      ∧ calc_crc6_0x67_direct 0x7D 0x46 0xD9 = false :=
  have w := double_bit_errors_detected (List.replicate 256 0) (List.length_replicate 256 0)
    0xFD 0x42 0xD9 (by decide) (by decide) (by decide) 10 23 (by decide) (by decide) (by decide)
  ⟨by decide,
    w.1 ((known_good_residual (0xFD, 0x42, 0xD9) (by rw [tested_known_good]; simp)).2.2.2 ▸
      calc_table_eq (List.replicate 256 0) (List.length_replicate 256 0) 0xFD 0x42 0xD9
        (by decide) (by decide) (by decide)),
    w.2 ((known_good_residual (0xFD, 0x42, 0xD9) (by rw [tested_known_good]; simp)).2.2.2 ▸
      calc_direct_eq 0xFD 0x42 0xD9)⟩

/-- C15: all burst errors of length at most 6 are detected: for every 3-byte
frame reported valid and every non-zero error pattern `e` whose set bits all
lie within a window of 6 consecutive bit positions `p..p+5` of the 24, the
frame `f XOR e` is reported invalid by `calc_crc6_0x67_table` and by
`calc_crc6_0x67_direct`. -/
theorem burst_errors_detected (table : List Nat) (h : table.length = 256)
    (d0 d1 d2 : Nat) (h0 : d0 < 256) (h1 : d1 < 256) (h2 : d2 < 256)
    (e p : Nat) (he : e ≠ 0) (hp : p + 6 ≤ 24)
    (hw : ∀ i, e.testBit i = true → p ≤ i ∧ i < p + 6) :
    (calc_crc6_0x67_table (generate_crc6_0x67_table table) d0 d1 d2 = some true →
      calc_crc6_0x67_table (generate_crc6_0x67_table table) (xor_pattern d0 d1 d2 e).1
        (xor_pattern d0 d1 d2 e).2.1 (xor_pattern d0 d1 d2 e).2.2 = some false)
    ∧ (calc_crc6_0x67_direct d0 d1 d2 = true →
      calc_crc6_0x67_direct (xor_pattern d0 d1 d2 e).1 (xor_pattern d0 d1 d2 e).2.1
        (xor_pattern d0 d1 d2 e).2.2 = false) := by
  obtain ⟨hlt, hs⟩ := window_syndrome_ne_zero e p he hp hw
  obtain ⟨e0, e1, e2⟩ := xor_pattern_lt d0 d1 d2 e h0 h1 h2 hlt
  have hne : residual_from 0x25 d0 d1 d2 = 0 →
      residual_from 0x25 (xor_pattern d0 d1 d2 e).1 (xor_pattern d0 d1 d2 e).2.1
        (xor_pattern d0 d1 d2 e).2.2 ≠ 0 := by
    intro hz
    rw [residual_xor_pattern, hz, Nat.zero_xor]
    exact hs
  rw [calc_table_eq table h d0 d1 d2 h0 h1 h2, calc_table_eq table h _ _ _ e0 e1 e2,
    calc_direct_eq, calc_direct_eq]
  constructor
  · intro hv
    rw [zero_beq_eq_false _ (hne ((zero_beq_eq_true _).mp (Option.some.inj hv)))]
  · intro hv
    exact zero_beq_eq_false _ (hne ((zero_beq_eq_true _).mp hv))

theorem burst_errors_detected_witness :
    xor_pattern 0xFD 0x42 0xD9 (45 * 2 ^ 8) = (0xFD, 0x6F, 0xD9)
      ∧ calc_crc6_0x67_table (generate_crc6_0x67_table (List.replicate 256 0)) 0xFD 0x6F 0xD9
          = some false
      ∧ calc_crc6_0x67_direct 0xFD 0x6F 0xD9 = false :=
  have w := burst_errors_detected (List.replicate 256 0) (List.length_replicate 256 0)
    0xFD 0x42 0xD9 (by decide) (by decide) (by decide) (45 * 2 ^ 8) 8 (by decide) (by decide)
    (window_of_shift 45 8 (by decide))
  ⟨by decide,
    w.1 ((known_good_residual (0xFD, 0x42, 0xD9) (by rw [tested_known_good]; simp)).2.2.2 ▸
      calc_table_eq (List.replicate 256 0) (List.length_replicate 256 0) 0xFD 0x42 0xD9
        (by decide) (by decide) (by decide)),
    w.2 ((known_good_residual (0xFD, 0x42, 0xD9) (by rw [tested_known_good]; simp)).2.2.2 ▸
      calc_direct_eq 0xFD 0x42 0xD9)⟩

/-- C16: the built table is linear over XOR: `table[0] = 0` and, for all
bytes `a` and `b`, `table[a XOR b] = table[a] XOR table[b]`. -/
theorem table_linear_over_xor (table : List Nat) (h : table.length = 256) :
    (generate_crc6_0x67_table table)[0]? = some 0
      ∧ ∀ a < 256, ∀ b < 256, ∃ x y,
          (generate_crc6_0x67_table table)[a]? = some x
            ∧ (generate_crc6_0x67_table table)[b]? = some y
            ∧ (generate_crc6_0x67_table table)[a ^^^ b]? = some (x ^^^ y) := by
  constructor
  · rw [generate_get table h, if_pos (by norm_num), table_entry_eq_foldl_zero 0 (by norm_num)]
    rfl
  · intro a ha b hb
    refine ⟨table_entry a, table_entry b, ?_, ?_, ?_⟩
    · rw [generate_get table h, if_pos ha]
    · rw [generate_get table h, if_pos hb]
    · rw [generate_get table h, if_pos (Nat.xor_lt_two_pow (n := 8) ha hb),
        table_entry_xor a b ha hb]

theorem table_linear_over_xor_witness :
    (generate_crc6_0x67_table (List.replicate 256 0))[0]? = some 0
      ∧ ∀ a < 256, ∀ b < 256, ∃ x y,
          (generate_crc6_0x67_table (List.replicate 256 0))[a]? = some x
            ∧ (generate_crc6_0x67_table (List.replicate 256 0))[b]? = some y
            ∧ (generate_crc6_0x67_table (List.replicate 256 0))[a ^^^ b]? = some (x ^^^ y) :=
  table_linear_over_xor (List.replicate 256 0) (List.length_replicate 256 0)

/-- C17: the seventh state slot `c[6]` of `calc_crc6_0x67_direct` never
influences the result: a step does not read `ch[6]`, so for every frame the
state after the 4 steps, and with it the verdict, is the same whatever the
initial value of `c[6]`. -/
theorem carry_slot_never_read (ch : CState) (d : DVec) (b : Bool) (d0 d1 d2 : Nat) :
    direct_step { ch with c6 := b } d = direct_step ch d
      ∧ direct_final_from { c_init with c6 := b } d0 d1 d2 = direct_final_from c_init d0 d1 d2
      ∧ c_all_clear (direct_final_from { c_init with c6 := b } d0 d1 d2)
          = calc_crc6_0x67_direct d0 d1 d2
      ∧ c_all_clear { direct_final_from c_init d0 d1 d2 with c6 := b }
          = calc_crc6_0x67_direct d0 d1 d2 :=
  ⟨direct_step_c6_irrelevant ch d b, direct_final_from_c6_irrelevant c_init d0 d1 d2 b,
    congrArg c_all_clear (direct_final_from_c6_irrelevant c_init d0 d1 d2 b), rfl⟩

end Crc6
